import Mathlib

/-!
A shallow embedding of the scrollomat directive compiler (`src/bezier.ts`).

Modelling conventions:
* JavaScript numbers are modelled as exact rationals.  The `NaN` value that
  `parseInt`/`parseFloat` produce on unparseable input is modelled as `none`
  in the type `NumQ := Option ℚ`; arithmetic on `NumQ` is `none`-absorbing,
  mirroring `NaN` propagation through `+ - * /` and `Math.max`, and every
  `NaN` comparison is `false`.  (IEEE rounding itself is not modelled; the
  program only performs exact small-rational arithmetic in the properties
  we examine.)
* A thrown exception (invalid bezier construction, lookup of a missing
  entry) and JavaScript nontermination (unbounded recursion, modelled by
  fuel exhaustion) are both rendered as `none` results of `Option`-valued
  functions.
* `console.error` calls are collected as values of the inductive `Diag`.
-/

/-- JS number that may be NaN: `none` models `NaN`. -/
abbrev NumQ := Option ℚ

/-- JS `+` with NaN absorption. -/
def nadd : NumQ → NumQ → NumQ
  | some a, some b => some (a + b)
  | _, _ => none

/-- JS `-` with NaN absorption. -/
def nsub : NumQ → NumQ → NumQ
  | some a, some b => some (a - b)
  | _, _ => none

/-- JS `*` with NaN absorption. -/
def nmul : NumQ → NumQ → NumQ
  | some a, some b => some (a * b)
  | _, _ => none

/-- JS `/` with NaN absorption.  (Division by zero yields `Infinity` in JS;
it is unreachable in the code paths we examine, where every divisor is
bounded below by 1, and is rendered here via rational division.) -/
def ndiv : NumQ → NumQ → NumQ
  | some a, some b => some (a / b)
  | _, _ => none

/-- JS `Math.max`, NaN-absorbing. -/
def nmax : NumQ → NumQ → NumQ
  | some a, some b => some (max a b)
  | _, _ => none

/-- JS `<=` comparison; any comparison against NaN is false. -/
def nle : NumQ → NumQ → Bool
  | some a, some b => decide (a ≤ b)
  | _, _ => false

namespace BezierEasing

/-- A successfully constructed `BezierEasing` instance: the constructor has
already validated that all four controls are numbers (not NaN) and that the
x-controls lie in [0,1]. -/
structure Curve where
  mX1 : ℚ
  mY1 : ℚ
  mX2 : ℚ
  mY2 : ℚ
  deriving DecidableEq, Repr

/-- `BezierEasing` constructor: `new BezierEasing(x1, y1, x2, y2)`.
Returns `none` when the constructor throws (NaN argument, or an x-control
outside [0,1]); finiteness is automatic for rationals. -/
def mk? (x1 y1 x2 y2 : NumQ) : Option Curve :=
  match x1, y1, x2, y2 with
  | some a1, some b1, some a2, some b2 =>
    if a1 < 0 ∨ a1 > 1 ∨ a2 < 0 ∨ a2 > 1 then none
    else some ⟨a1, b1, a2, b2⟩
  | _, _, _, _ => none

/-- `BezierEasing.A`. -/
def A (aA1 aA2 : ℚ) : ℚ := 1 - 3 * aA2 + 3 * aA1

/-- `BezierEasing.B`. -/
def B (aA1 aA2 : ℚ) : ℚ := 3 * aA2 - 6 * aA1

/-- `BezierEasing.C`. -/
def C (aA1 : ℚ) : ℚ := 3 * aA1

/-- `BezierEasing.calcBezier`. -/
def calcBezier (aT aA1 aA2 : ℚ) : ℚ :=
  ((A aA1 aA2 * aT + B aA1 aA2) * aT + C aA1) * aT

/-- `BezierEasing.getSlope`. -/
def getSlope (aT aA1 aA2 : ℚ) : ℚ :=
  3 * A aA1 aA2 * aT * aT + 2 * B aA1 aA2 * aT + C aA1

/-- `SUBDIVISION_PRECISION = 0.0000001`. -/
def subdivisionPrecision : ℚ := 1 / 10000000

/-- `kSampleStepSize = 1/10`. -/
def kSampleStepSize : ℚ := 1 / 10

/-- The sample table `mSampleValues` (11 uniformly spaced bezier-x values),
as computed by `calcSampleValues`. -/
def sampleValues (c : Curve) : List ℚ :=
  (List.range 11).map fun i => calcBezier ((i : ℚ) * kSampleStepSize) c.mX1 c.mX2

/-- `binarySubdivide`: do-while loop, first iteration unconditional, at most
`SUBDIVISION_MAX_ITERATIONS = 10` iterations in total; `fuel` counts the
remaining iterations after the current one (initially 9). -/
def binarySubdivide (c : Curve) (aX : ℚ) : ℕ → ℚ → ℚ → ℚ
  | fuel, aA, aB =>
    let currentT := aA + (aB - aA) / 2
    let currentX := calcBezier currentT c.mX1 c.mX2 - aX
    match fuel with
    | 0 => currentT
    | f + 1 =>
      if |currentX| > subdivisionPrecision then
        if currentX > 0 then binarySubdivide c aX f aA currentT
        else binarySubdivide c aX f currentT aB
      else currentT

/-- `newtonRaphsonIterate`: `NEWTON_ITERATIONS = 4` refinement steps. -/
def newtonRaphsonIterate (c : Curve) (aX : ℚ) : ℕ → ℚ → ℚ
  | 0, aGuessT => aGuessT
  | n + 1, aGuessT =>
    let currentSlope := getSlope aGuessT c.mX1 c.mX2
    if currentSlope = 0 then aGuessT
    else
      let currentX := calcBezier aGuessT c.mX1 c.mX2 - aX
      newtonRaphsonIterate c aX n (aGuessT - currentX / currentSlope)

/-- The linear-scan loop of `getTForX`: starting from `currentSample = 1`,
advance while `currentSample != lastSample && mSampleValues[currentSample] <= aX`.
Returns the final value of `currentSample` (in `[1, 10]`). -/
def scanSample (s : List ℚ) (aX : ℚ) : ℕ :=
  1 + ((List.range' 1 9).takeWhile fun i => decide (s.getD i 0 ≤ aX)).length

/-- `getTForX`. -/
def getTForX (c : Curve) (aX : ℚ) : ℚ :=
  let s := sampleValues c
  let cs := scanSample s aX
  let intervalStart := ((cs : ℚ) - 1) * kSampleStepSize
  let currentSample := cs - 1
  let dist := (aX - s.getD currentSample 0) /
    (s.getD (currentSample + 1) 0 - s.getD currentSample 0)
  let guessForT := intervalStart + dist * kSampleStepSize
  let initialSlope := getSlope guessForT c.mX1 c.mX2
  if initialSlope ≥ 1 / 1000 then newtonRaphsonIterate c aX 4 guessForT
  else if initialSlope = 0 then guessForT
  else binarySubdivide c aX 9 intervalStart (intervalStart + kSampleStepSize)

/-- `BezierEasing.evaluate` (the lazy `precompute` bookkeeping has no
observable effect and is omitted). -/
def evaluate (c : Curve) (aX : ℚ) : ℚ :=
  if c.mX1 = c.mY1 ∧ c.mX2 = c.mY2 then aX
  else if aX ≤ 0 then 0
  else if aX ≥ 1 then 1
  else calcBezier (getTForX c aX) c.mY1 c.mY2

end BezierEasing

/-- `Scrollomat.computeBezier(t, ...curve)`: the static wrapper.  The curve
arrives as a (spread) list of JS values; only the first four are consumed by
the constructor, and a list shorter than four supplies `undefined`
arguments, which make the constructor throw (`none`).  A thrown
construction error is rendered as `none`. -/
def computeBezier (t : ℚ) (curve : List NumQ) : Option ℚ :=
  if t ≥ 1 then some 1
  else if t ≤ 0 then some 0
  else match curve with
    | x1 :: y1 :: x2 :: y2 :: _ =>
      (BezierEasing.mk? x1 y1 x2 y2).map fun c => BezierEasing.evaluate c t
    | _ => none

/-- `computeBezier` applied to a JS number that may be NaN.  (A NaN
progress value falls through both clamps in JS and reaches the numeric
solver; no claim exercises that path, and it is rendered as `none`.) -/
def computeBezierN (t : NumQ) (curve : List NumQ) : Option ℚ :=
  match t with
  | some q => computeBezier q curve
  | none => none

/-! ## JS string primitives used by the compiler

All string operations are implemented structurally over character lists so
that concrete runs reduce inside the kernel. -/

/-- `String.split` on a single separator character (JS `split(sep)`:
`"a;;b" → ["a","","b"]`, `"" → [""]`). -/
def splitOnChar (sep : Char) : List Char → List (List Char)
  | [] => [[]]
  | c :: rest =>
    let r := splitOnChar sep rest
    if c = sep then [] :: r
    else
      match r with
      | h :: t => (c :: h) :: t
      | [] => [[c]]

/-- JS `s.split(sep)` for a one-character separator. -/
def jsSplitOn (s : String) (sep : Char) : List String :=
  (splitOnChar sep s.data).map String.mk

/-- Strip leading and trailing whitespace from a character list. -/
def trimChars (cs : List Char) : List Char :=
  ((cs.dropWhile Char.isWhitespace).reverse.dropWhile Char.isWhitespace).reverse

/-- JS `s.trim()`. -/
def jsTrim (s : String) : String := String.mk (trimChars s.data)

/-- JS `s.startsWith(pre)`. -/
def jsStartsWith (s pre : String) : Bool := pre.data.isPrefixOf s.data

/-- JS `s.includes(c)` for a single character. -/
def jsContainsChar (s : String) (c : Char) : Bool := s.data.contains c

/-- JS `arr.join(' ')`. -/
def joinSpaces (l : List String) : String :=
  String.mk ((l.map String.data).intersperse [' ']).flatten

/-- Fold a digit list into a natural number. -/
def digitsToNat (l : List Char) : ℕ :=
  l.foldl (fun acc ch => 10 * acc + (ch.toNat - 48)) 0

/-- JS `parseInt(s)` (radix 10): skip leading whitespace, optional sign,
longest digit prefix; `NaN` (`none`) when no digits are found.  (The
automatic hexadecimal `0x` prefix of `parseInt` is not modelled; no
directive input uses it.) -/
def parseIntJS (s : String) : NumQ :=
  let cs := s.data.dropWhile (·.isWhitespace)
  let signed : Bool × List Char :=
    match cs with
    | '-' :: rest => (true, rest)
    | '+' :: rest => (false, rest)
    | _ => (false, cs)
  let digits := signed.2.takeWhile (·.isDigit)
  if digits.isEmpty then none
  else
    let v : ℚ := (digitsToNat digits : ℚ)
    some (if signed.1 then -v else v)

/-- JS `parseInt` applied to a possibly-`undefined` array slot
(`parseInt(undefined)` is `NaN`). -/
def parseIntU (s : Option String) : NumQ :=
  match s with
  | some str => parseIntJS str
  | none => none

/-- JS `parseFloat(s)` on plain decimal literals: optional sign, integer
digits, optional `.` and fraction digits; `NaN` when no digits at all.
(Exponent notation is not modelled; no directive input uses it.) -/
def parseFloatJS (s : String) : NumQ :=
  let cs := s.data.dropWhile (·.isWhitespace)
  let signed : Bool × List Char :=
    match cs with
    | '-' :: rest => (true, rest)
    | '+' :: rest => (false, rest)
    | _ => (false, cs)
  let intDigits := signed.2.takeWhile (·.isDigit)
  let afterInt := signed.2.dropWhile (·.isDigit)
  let fracDigits : List Char :=
    match afterInt with
    | '.' :: rest => rest.takeWhile (·.isDigit)
    | _ => []
  if intDigits.isEmpty ∧ fracDigits.isEmpty then none
  else
    let v : ℚ := (digitsToNat intDigits : ℚ) +
      (digitsToNat fracDigits : ℚ) / ((10 : ℚ) ^ fracDigits.length)
    some (if signed.1 then -v else v)

/-- JS array indexing `l[i]`, `undefined` out of range (including negative
indices). -/
def getStr (l : List String) (i : ℤ) : Option String :=
  if i < 0 then none else l[i.toNat]?

/-- JS `Array.prototype.indexOf`, returning `-1` when absent. -/
def jsIndexOf (l : List String) (x : String) : ℤ :=
  match l.indexOf? x with
  | some n => (n : ℤ)
  | none => -1

/-- JS `Array.prototype.splice(start, 2, ...items)` used by the `like`
substitution: replaces two elements at `start` by `items`. -/
def jsSplice2 (l : List String) (start : ℕ) (items : List String) : List String :=
  l.take start ++ items ++ l.drop (start + 2)

/-- `instruction.trim().split(/ +/)`: on trimmed input, splitting on runs
of spaces coincides with splitting on single spaces and discarding empty
fragments. -/
def splitSpaces (s : String) : List String :=
  (jsSplitOn s ' ').filter (· ≠ "")

/-- `instruction.split(' ')[0]`: the keyword of a (trimmed) directive. -/
def keywordOf (line : String) : String :=
  (jsSplitOn line ' ').headD ""

/-- `Math.max(...values)` over a JS array (NaN-absorbing).  The `-Infinity`
result on an empty array lies outside the model; every claim restricts to
non-empty record sets. -/
def jsMaxList (l : List NumQ) : NumQ :=
  match l with
  | [] => none
  | h :: t => t.foldl nmax h

/-! ## Data model -/

/-- One `console.error` diagnostic, tagged with the offending keyword /
reference and the owning entry name where the message interpolates them. -/
inductive Diag where
  | unknownDirective (kw name : String)
  | invalidReferent (ref kw name : String)
  | unexpectedParams (kw name : String)
  | malformedParams (kw name : String)
  | easeInAbsolute (name : String)
  | xyOutsideAbsolute (kw name : String)
  | invalidPipe (kw name : String)
  | invalidPipeReference (kw name : String)
  | malformedPipeParams (kw name : String)
  | unspecifiedStart (kw name : String)
  | segmentationFailed (kw name : String)
  | unexpectedToken (kw name : String)
  | missingTimeSpecifier (kw name : String)
  | invalidDestReference (id kw name : String)
  deriving DecidableEq, Repr

/-- A raw entry: `ScrollInstruction`.  The opaque element handle is
represented by the one quantity the compiler reads from it,
`getBoundingClientRect().height / window.innerHeight` (the Geometry
Provider's height ratio). -/
structure ScrollInstruction where
  name : String
  instruction : String
  heightRatio : ℚ
  deriving DecidableEq, Repr

/-- `AbsoluteData`.  The `destinations` field of the source interface is
never written nor read and is omitted; `easingFunction` is read (line 586)
but never written anywhere in the source, so it is carried as a
permanently-`none` field. -/
structure AbsoluteData where
  value : Option (List String) := none
  destination : Option NumQ := none
  easingFunction : Option (List NumQ) := none
  deriving DecidableEq, Repr

/-- `CompiledAbsoluteSegment`. -/
structure CompiledAbsoluteSegment where
  byTime : NumQ
  startPos : NumQ
  endPos : NumQ
  ease : List NumQ
  deriving DecidableEq, Repr

/-- A deep description of one installed scroll-listener closure.  Each
constructor records exactly the data the corresponding JS closure captures;
fields the closure re-reads from its (by then immutable, or only ever
rewritten together with the closure itself) record at call time are passed
to `evalListener` through the record. -/
inductive Listener where
  /-- default `xEasingFunction`: `() => '0vw'` -/
  | constVW0
  /-- default `opacityEasingFunction`: `() => '1'` -/
  | constOne
  /-- `Scrollomat.getEasingFunction(curve, entry)`; captures the curve and
  the entry's height ratio. -/
  | heightEasing (curve : List NumQ) (heightRatio : ℚ)
  /-- single-value `x`/`y`: `() => destination + unit` -/
  | fixedDest (destination : NumQ) (unit : String)
  /-- multi-value `x`/`y` (piecewise-uniform); captures `prePipe` and the
  resolved easing curve. -/
  | piecewise (prePipe : List String) (curve : List NumQ) (unit : String)
  /-- fully custom `x`/`y` timeline; captures `initialPos` and the sorted
  segments; `resultHere.duration` is read at call time. -/
  | custom (initialPos : NumQ) (segments : List CompiledAbsoluteSegment)
      (unit : String)
  /-- 4-parameter `opacity-ease` closure (reads the record's
  `opacityEasingCurve`, which is only ever rewritten together with the
  closure, so its value is captured here). -/
  | opacity4 (curve : List NumQ)
  /-- 8-parameter `opacity-ease` closure; captures the `isAbsolute` local
  and the entry's height ratio alongside the 8-entry curve list. -/
  | opacity8 (curve : List NumQ) (isAbsolute : Bool) (heightRatio : ℚ)
  deriving DecidableEq, Repr

/-- `CompiledScrollInstruction`. -/
structure CompiledScrollInstruction where
  name : String
  instruction : String
  heightRatio : ℚ
  enterAt : NumQ
  duration : NumQ
  leaveAt : NumQ
  yEasingCurve : List NumQ
  opacityEasingCurve : List NumQ
  isAbsolute : Bool
  absoluteX : AbsoluteData
  absoluteY : AbsoluteData
  xListener : Listener
  yListener : Listener
  opacityListener : Listener
  deriving DecidableEq, Repr

/-- The default curve `[0, 0, 1, 1]`. -/
def defaultCurve : List NumQ := [some 0, some 0, some 1, some 1]

/-- The initial `resultHere` (lines 299-329). -/
def defaultRecord (e : ScrollInstruction) : CompiledScrollInstruction where
  name := e.name
  instruction := e.instruction
  heightRatio := e.heightRatio
  enterAt := some 0
  duration := some 100
  leaveAt := some 100
  yEasingCurve := defaultCurve
  opacityEasingCurve := [some 0, some 1, some 1, some 1]
  isAbsolute := false
  absoluteX := {}
  absoluteY := {}
  xListener := .constVW0
  yListener := .heightEasing defaultCurve e.heightRatio
  opacityListener := .constOne

/-- The mutable compiler state shared by the re-entrant
`requestForProcessing` calls: the compilation map (insertion-ordered, as
`Object.values` relies on), the remaining `entriesToProcess`, and the
`console.error` log. -/
structure St where
  map : List (String × CompiledScrollInstruction)
  pending : List ScrollInstruction
  log : List Diag
  deriving DecidableEq, Repr

/-- `compilationMap[id]`. -/
def St.lookup (st : St) (id : String) : Option CompiledScrollInstruction :=
  (st.map.find? fun p => p.1 = id).map (·.2)

/-- Append a diagnostic (`console.error`). -/
def St.logDiag (st : St) (d : Diag) : St :=
  { st with log := st.log ++ [d] }

/-! ## Listener semantics -/

/-- Runtime meaning of the custom-timeline closure (lines 762-799).  Takes
the record's `duration` (read from `resultHere` at call time). -/
def customEval (duration : NumQ) (initialPos : NumQ)
    (segments : List CompiledAbsoluteSegment) (t : ℚ) : Option ℚ :=
  let absTime := nmul (some t) duration
  let found := segments.findIdx? fun e => nle e.byTime absTime
  let pair : CompiledAbsoluteSegment × Option CompiledAbsoluteSegment :=
    match found with
    | some i =>
      match segments[i]? with
      | some lastC =>
        (lastC, if i = 0 then none else segments[i - 1]?)
      | none => (⟨some 0, some 0, initialPos, defaultCurve⟩, segments.getLast?)
    | none =>
      -- `lastCheckpoint` undefined: synthesised checkpoint, and
      -- `currentCheckpoint = segments.slice(-1)[0]`.
      (⟨some 0, some 0, initialPos, defaultCurve⟩, segments.getLast?)
  let lastC := pair.1
  let currC := pair.2.getD lastC
  let elapsedTime := nsub absTime lastC.byTime
  let currentDuration := nmax (some 1) (nsub currC.byTime lastC.byTime)
  nadd currC.startPos
    (nmul (computeBezierN (ndiv elapsedTime currentDuration) currC.ease)
      (nsub currC.endPos currC.startPos))

/-- Runtime meaning of an installed listener: the numeric part of the
returned string (`vw`/`vh`/opacity units are recorded in the descriptor).
`none` models NaN output or a thrown bezier-construction error. -/
def evalListener (r : CompiledScrollInstruction) : Listener → ℚ → Option ℚ
  | .constVW0, _ => some 0
  | .constOne, _ => some 1
  | .heightEasing curve hr, t =>
    (computeBezier t curve).map fun v => 100 - v * (100 + hr * 100)
  | .fixedDest d _, _ => d
  | .piecewise prePipe curve _, t =>
    let interval : ℚ := t * ((prePipe.length : ℚ) - 1)
    let segment : ℤ := min ((prePipe.length : ℤ) - 2) ⌊interval⌋
    let excess : ℚ := interval - (segment : ℚ)
    nadd (parseIntU (getStr prePipe segment))
      (nmul (computeBezier excess curve)
        (nsub (parseIntU (getStr prePipe (segment + 1)))
          (parseIntU (getStr prePipe segment))))
  | .custom initialPos segments _, t => customEval r.duration initialPos segments t
  | .opacity4 curve, t => computeBezierN (some t) curve
  | .opacity8 curve isAbs hr, t =>
    let extraT : ℚ := if isAbs then 0 else hr
    if t < 1 / 2 then
      computeBezier (t * 2 - extraT * (3 / 2)) curve
    else
      (computeBezier (t * 2 - 1 - extraT * (3 / 2)) (curve.drop 4)).map (1 - ·)

/-! ## The `argSegmenterRegexp` matcher

The custom absolute sub-grammar is segmented by the global regex
(line 653):

`(?:(\+)?(-?\d+)|(like|with-exit|with-entry) ([a-zA-Z0-9-.]+)): `
`(?:(-?\d+)|(like) ([a-zA-Z0-9-.]+))? ?- (?:(-?\d+)|(like) ([a-zA-Z0-9-.]+))`
` \| (?:([0-9.]+ [0-9.]+ [0-9.]+ [0-9.]+)|(like) ([a-zA-Z0-9-.]+)) \|`

The matcher below implements exactly this pattern (alternatives tried
left-to-right, greedy token classes, the single optional start group
backtracked when the remainder fails — the only backtracking the pattern
can require, since every token class is followed by a delimiter outside
the class). -/

/-- Capture groups 1-13 of one `argSegmenterRegexp` match; group numbers
follow the source's `segment[i]` indexing. -/
structure SegMatch where
  g1 : Bool := false
  g2 : Option String := none
  g3 : Option String := none
  g4 : Option String := none
  g5 : Option String := none
  g6 : Bool := false
  g7 : Option String := none
  g8 : Option String := none
  g9 : Bool := false
  g10 : Option String := none
  g11 : Option String := none
  g12 : Bool := false
  g13 : Option String := none
  deriving DecidableEq, Repr

/-- `[a-zA-Z0-9-.]` (ASCII letters, digits, hyphen, dot). -/
def idChar (c : Char) : Bool := c.isAlpha ∨ c.isDigit ∨ c = '-' ∨ c = '.'

/-- `[0-9.]`. -/
def floatChar (c : Char) : Bool := c.isDigit ∨ c = '.'

/-- Greedy non-empty token of a character class. -/
def takeClass1 (p : Char → Bool) (cs : List Char) :
    Option (List Char × List Char) :=
  let tk := cs.takeWhile p
  if tk.isEmpty then none else some (tk, cs.drop tk.length)

/-- Match a literal character sequence. -/
def expectLit : List Char → List Char → Option (List Char)
  | [], cs => some cs
  | l :: ls, c :: cs => if c = l then expectLit ls cs else none
  | _ :: _, [] => none

/-- `-?\d+` (no backtracking possible: a consumed `-` must be followed by a
digit, and retrying without the `-` faces the same `-`). -/
def parseSignedInt (cs : List Char) : Option (String × List Char) :=
  match cs with
  | '-' :: rest =>
    (takeClass1 Char.isDigit rest).map fun p => (String.mk ('-' :: p.1), p.2)
  | _ => (takeClass1 Char.isDigit cs).map fun p => (String.mk p.1, p.2)

/-- `[a-zA-Z0-9-.]+`. -/
def parseId (cs : List Char) : Option (String × List Char) :=
  (takeClass1 idChar cs).map fun p => (String.mk p.1, p.2)

/-- The time-spec alternation `(\+)?(-?\d+)|(like|with-exit|with-entry) (id)`,
yielding groups (1,2,3,4). -/
def pTimeSpec (cs : List Char) :
    Option ((Bool × Option String × Option String × Option String) × List Char) :=
  let altA : Option ((Bool × Option String × Option String × Option String) × List Char) :=
    match cs with
    | '+' :: rest =>
      (parseSignedInt rest).map fun p => ((true, some p.1, none, none), p.2)
    | _ =>
      (parseSignedInt cs).map fun p => ((false, some p.1, none, none), p.2)
  match altA with
  | some res => some res
  | none =>
    let kw : Option (String × List Char) :=
      match expectLit "like".data cs with
      | some r => some ("like", r)
      | none =>
        match expectLit "with-exit".data cs with
        | some r => some ("with-exit", r)
        | none => (expectLit "with-entry".data cs).map fun r => ("with-entry", r)
    match kw with
    | some (k, r1) =>
      match r1 with
      | ' ' :: r2 => (parseId r2).map fun p => ((false, none, some k, some p.1), p.2)
      | _ => none
    | none => none

/-- `(-?\d+)|(like) (id)`: a position spec, yielding groups
(number?, like-flag, like-id?). -/
def pPosSpec (cs : List Char) :
    Option ((Option String × Bool × Option String) × List Char) :=
  match parseSignedInt cs with
  | some (n, r) => some ((some n, false, none), r)
  | none =>
    match expectLit "like ".data cs with
    | some r1 => (parseId r1).map fun p => ((none, true, some p.1), p.2)
    | none => none

/-- `[0-9.]+ [0-9.]+ [0-9.]+ [0-9.]+` (group 11's raw text). -/
def pFourFloats (cs : List Char) : Option (String × List Char) :=
  match takeClass1 floatChar cs with
  | some (f1, ' ' :: r1) =>
    match takeClass1 floatChar r1 with
    | some (f2, ' ' :: r2) =>
      match takeClass1 floatChar r2 with
      | some (f3, ' ' :: r3) =>
        match takeClass1 floatChar r3 with
        | some (f4, r4) =>
          some (String.mk (f1 ++ ' ' :: (f2 ++ ' ' :: (f3 ++ ' ' :: f4))), r4)
        | none => none
      | _ => none
    | _ => none
  | _ => none

/-- `([0-9.]+ [0-9.]+ [0-9.]+ [0-9.]+)|(like) (id)`: the ease spec,
yielding groups (11, 12, 13). -/
def pEaseSpec (cs : List Char) :
    Option ((Option String × Bool × Option String) × List Char) :=
  match pFourFloats cs with
  | some (f, r) => some ((some f, false, none), r)
  | none =>
    match expectLit "like ".data cs with
    | some r1 => (parseId r1).map fun p => ((none, true, some p.1), p.2)
    | none => none

/-- The pattern tail after the optional start group:
` ?- (end) \| (ease) \|`, yielding groups (8,9,10,11,12,13). -/
def pTail (cs : List Char) :
    Option (((Option String × Bool × Option String) ×
      (Option String × Bool × Option String)) × List Char) :=
  let afterDash : Option (List Char) :=
    match cs with
    | ' ' :: '-' :: ' ' :: r => some r
    | '-' :: ' ' :: r => some r
    | _ => none
  match afterDash with
  | none => none
  | some r0 =>
    match pPosSpec r0 with
    | none => none
    | some (endG, r1) =>
      match r1 with
      | ' ' :: '|' :: ' ' :: r2 =>
        match pEaseSpec r2 with
        | some (easeG, r3) =>
          match r3 with
          | ' ' :: '|' :: r4 => some ((endG, easeG), r4)
          | _ => none
        | none => none
      | _ => none

/-- Assemble a `SegMatch` from the group tuples. -/
def mkSegMatch (ts : Bool × Option String × Option String × Option String)
    (startG : Option String × Bool × Option String)
    (endG : Option String × Bool × Option String)
    (easeG : Option String × Bool × Option String) : SegMatch where
  g1 := ts.1
  g2 := ts.2.1
  g3 := ts.2.2.1
  g4 := ts.2.2.2
  g5 := startG.1
  g6 := startG.2.1
  g7 := startG.2.2
  g8 := endG.1
  g9 := endG.2.1
  g10 := endG.2.2
  g11 := easeG.1
  g12 := easeG.2.1
  g13 := easeG.2.2

/-- Try one anchored match of `argSegmenterRegexp` at the head of `cs`. -/
def pMatchAt (cs : List Char) : Option (SegMatch × List Char) :=
  match pTimeSpec cs with
  | none => none
  | some (tsG, r1) =>
    match r1 with
    | ':' :: ' ' :: r2 =>
      let withStart : Option (SegMatch × List Char) :=
        match pPosSpec r2 with
        | some (startG, r3) =>
          (pTail r3).map fun p => (mkSegMatch tsG startG p.1.1 p.1.2, p.2)
        | none => none
      match withStart with
      | some res => some res
      | none =>
        (pTail r2).map fun p => (mkSegMatch tsG (none, false, none) p.1.1 p.1.2, p.2)
    | _ => none

/-- Global scan: `matchAll` matches and the `replace(regexp, '')` residual,
computed together (fuelled by the input length; each step consumes at least
one character). -/
def scanMatches : ℕ → List Char → List SegMatch × List Char
  | 0, cs => ([], cs)
  | fuel + 1, cs =>
    match pMatchAt cs with
    | some (m, rest) =>
      let p := scanMatches fuel rest
      (m :: p.1, p.2)
    | none =>
      match cs with
      | [] => ([], [])
      | c :: rest =>
        let p := scanMatches fuel rest
        (p.1, c :: p.2)

/-- `fullParameter.matchAll(argSegmenterRegexp)` and the
`replace`-then-`trim` residual test, on a string. -/
def segmentArg (s : String) : List SegMatch × String :=
  let p := scanMatches s.data.length s.data
  (p.1, String.mk (trimChars p.2))

/-! ## Directive handlers (the `switch` cases of `requestForProcessing`) -/

/-- `resultHere[absoluteKey]` (read). -/
def getAbsData (r : CompiledScrollInstruction) (isX : Bool) : AbsoluteData :=
  if isX then r.absoluteX else r.absoluteY

/-- `resultHere[absoluteKey]` (write). -/
def setAbsData (r : CompiledScrollInstruction) (isX : Bool)
    (d : AbsoluteData) : CompiledScrollInstruction :=
  if isX then { r with absoluteX := d } else { r with absoluteY := d }

/-- `resultHere.scrollListeners[easingKey]` (write). -/
def setAxisListener (r : CompiledScrollInstruction) (isX : Bool)
    (l : Listener) : CompiledScrollInstruction :=
  if isX then { r with xListener := l } else { r with yListener := l }

/-- `case 'enter'` (lines 411-429). -/
def processEnter (fds : Option CompiledScrollInstruction) (fdv : Option NumQ)
    (dp : List String) (r : CompiledScrollInstruction) (name : String) :
    CompiledScrollInstruction × List Diag :=
  match fds with
  | some src => ({ r with enterAt := src.enterAt }, [])
  | none =>
    match fdv with
    | some v => ({ r with enterAt := v }, [])
    | none =>
      if dp.length > 1 then (r, [.unexpectedParams "enter" name])
      else ({ r with enterAt := parseIntU dp.head? }, [])

/-- `case 'leave'` (lines 430-448).  NB the literal branch assigns
`resultHere.enterAt` (line 447), not `duration`. -/
def processLeave (fds : Option CompiledScrollInstruction) (fdv : Option NumQ)
    (dp : List String) (r : CompiledScrollInstruction) (name : String) :
    CompiledScrollInstruction × List Diag :=
  match fds with
  | some src =>
    ({ r with duration := nsub (nadd src.enterAt src.duration) r.enterAt }, [])
  | none =>
    match fdv with
    | some v => ({ r with duration := nsub v r.enterAt }, [])
    | none =>
      if dp.length > 1 then (r, [.unexpectedParams "leave" name])
      else ({ r with enterAt := nsub (parseIntU dp.head?) r.enterAt }, [])

/-- `case 'ease'` (lines 450-470). -/
def processEase (isAbs : Bool) (fds : Option CompiledScrollInstruction)
    (dp : List String) (r : CompiledScrollInstruction) (name : String) :
    CompiledScrollInstruction × List Diag :=
  if isAbs then (r, [.easeInAbsolute name])
  else
    match fds with
    | some src => ({ r with yEasingCurve := src.yEasingCurve }, [])
    | none =>
      if dp.length ≠ 4 then (r, [.malformedParams "ease" name])
      else
        let curve := dp.map parseFloatJS
        ({ r with yEasingCurve := curve,
                  yListener := .heightEasing curve r.heightRatio }, [])

/-- `case 'opacity-ease'` (lines 471-512). -/
def processOpacityEase (isAbs : Bool) (fds : Option CompiledScrollInstruction)
    (dp : List String) (r : CompiledScrollInstruction) (name : String) :
    CompiledScrollInstruction × List Diag :=
  match fds with
  | some src =>
    ({ r with opacityEasingCurve := src.opacityEasingCurve,
              opacityListener := src.opacityListener }, [])
  | none =>
    if dp.length ≠ 4 ∧ dp.length ≠ 8 then (r, [.malformedParams "opacity-ease" name])
    else
      let curve := dp.map parseIntJS
      if dp.length = 4 then
        ({ r with opacityEasingCurve := curve,
                  opacityListener := .opacity4 curve }, [])
      else
        ({ r with opacityEasingCurve := curve,
                  opacityListener := .opacity8 curve isAbs r.heightRatio }, [])

/-- `case 'duration'` (lines 513-526). -/
def processDuration (fds : Option CompiledScrollInstruction)
    (dp : List String) (r : CompiledScrollInstruction) (name : String) :
    CompiledScrollInstruction × List Diag :=
  match fds with
  | some src => ({ r with duration := src.duration }, [])
  | none =>
    if dp.length > 1 then (r, [.unexpectedParams "duration" name])
    else ({ r with duration := parseIntU dp.head? }, [])

/-! ## Custom absolute timelines -/

/-- The time-specifier part of the segment-collection `forEach` body
(lines 683-714).  Returns the segment-so-far, or `none` in the inner
component for the diagnostic `return` that skips the segment. -/
def csTime (R : String → St → Option St) (keyword name : String)
    (rEnterAt : NumQ) (m : SegMatch) (latestTime : NumQ)
    (seg0 : CompiledAbsoluteSegment) (st : St) :
    Option (St × Option CompiledAbsoluteSegment) :=
  match m.g2 with
  | some timeStr =>
    let timeData := parseIntJS timeStr
    if m.g1 then some (st, some { seg0 with byTime := nadd latestTime timeData })
    else some (st, some { seg0 with byTime := timeData })
  | none =>
    match m.g3, m.g4 with
    | some rel, some refId =>
      match R refId st with
      | none => none
      | some st1 =>
        match st1.lookup refId with
        | none => none
        | some src =>
          let bt : NumQ :=
            if rel = "with-entry" then nsub src.enterAt rEnterAt
            else if rel = "like" ∨ rel = "with-exit" then nsub src.leaveAt rEnterAt
            else seg0.byTime
          some (st1, some { seg0 with byTime := bt })
    | _, _ => some (st.logDiag (.missingTimeSpecifier keyword name), none)

/-- One iteration of the `[['startPos', 5], ['endPos', 8]].forEach` loop
(lines 716-742); `setF` writes the selected field (`segmentHere[data[0]]`). -/
def csPos (R : String → St → Option St) (isX : Bool) (keyword name : String)
    (numG : Option String) (likeFlag : Bool) (likeId : Option String)
    (setF : CompiledAbsoluteSegment → NumQ → CompiledAbsoluteSegment)
    (s : CompiledAbsoluteSegment) (st : St) :
    Option (St × CompiledAbsoluteSegment) :=
  let s1 := match numG with
    | some v => setF s (parseIntJS v)
    | none => s
  if likeFlag then
    match likeId with
    | none => none
    | some refId =>
      match R refId st with
      | none => none
      | some st1 =>
        match st1.lookup refId with
        | none => none
        | some src =>
          match (getAbsData src isX).destination with
          | none =>
            some (st1.logDiag (.invalidDestReference refId keyword name), s1)
          | some dest => some (st1, setF s1 dest)
  else some (st, s1)

/-- The easing part of the segment-collection body (lines 744-754). -/
def csEase (R : String → St → Option St) (m : SegMatch)
    (s : CompiledAbsoluteSegment) (st : St) :
    Option (St × CompiledAbsoluteSegment) :=
  match m.g11 with
  | some raw =>
    some (st, { s with ease := (jsSplitOn raw ' ').map parseFloatJS })
  | none =>
    if m.g12 then
      match m.g13 with
      | none => none
      | some refId =>
        match R refId st with
        | none => none
        | some st1 =>
          match st1.lookup refId with
          | none => none
          | some src => some (st1, { s with ease := src.yEasingCurve })
    else some (st, s)

/-- One iteration of the segment-collection `forEach` (lines 670-759).
`R` is the re-entrant `requestForProcessing` (at the remaining recursion
budget).  Returns `none` on a crash (a thrown lookup error inside the
callback); a diagnostic `return`, by contrast, skips this segment and
leaves the accumulator unchanged. -/
def collectSegment (R : String → St → Option St) (isX : Bool)
    (keyword name : String) (rEnterAt : NumQ) (m : SegMatch) (st : St)
    (latestTime lastPos : NumQ) (segs : List CompiledAbsoluteSegment) :
    Option (St × NumQ × NumQ × List CompiledAbsoluteSegment) :=
  let seg0 : CompiledAbsoluteSegment :=
    { byTime := latestTime, startPos := lastPos, endPos := lastPos,
      ease := defaultCurve }
  match csTime R keyword name rEnterAt m latestTime seg0 st with
  | none => none
  | some (stA, none) => some (stA, latestTime, lastPos, segs)
  | some (stA, some seg1) =>
    match csPos R isX keyword name m.g5 m.g6 m.g7
      (fun s v => { s with startPos := v }) seg1 stA with
    | none => none
    | some (stB, seg2) =>
      match csPos R isX keyword name m.g8 m.g9 m.g10
        (fun s v => { s with endPos := v }) seg2 stB with
      | none => none
      | some (stC, seg3) =>
        match csEase R m seg3 stC with
        | none => none
        | some (stD, segF) =>
          some (stD, segF.byTime, segF.endPos, segs ++ [segF])

/-- The whole segment-collection loop. -/
def collectSegments (R : String → St → Option St) (isX : Bool)
    (keyword name : String) (rEnterAt : NumQ) :
    List SegMatch → St → NumQ → NumQ → List CompiledAbsoluteSegment →
    Option (St × List CompiledAbsoluteSegment)
  | [], st, _, _, segs => some (st, segs)
  | m :: ms, st, lt, lp, segs =>
    match collectSegment R isX keyword name rEnterAt m st lt lp segs with
    | none => none
    | some (st1, lt1, lp1, segs1) =>
      collectSegments R isX keyword name rEnterAt ms st1 lt1 lp1 segs1

/-- The comparator `(a, b) => b.byTime - a.byTime` as a stable "a before b"
test (descending `byTime`; a NaN difference keeps the existing order). -/
def segSortLE (a b : CompiledAbsoluteSegment) : Bool :=
  match nsub b.byTime a.byTime with
  | some d => decide (d ≤ 0)
  | none => true

/-- Stable insertion: place `x` after every already-placed element that is
not strictly greater under the comparator preorder. -/
def insertSegDesc (x : CompiledAbsoluteSegment) :
    List CompiledAbsoluteSegment → List CompiledAbsoluteSegment
  | [] => [x]
  | y :: ys =>
    if segSortLE x y ∧ ¬ segSortLE y x then x :: y :: ys
    else y :: insertSegDesc x ys

/-- `segments.sort((a, b) => b.byTime - a.byTime)`: JS `sort` is stable, so
it coincides with stable insertion sort under the comparator preorder. -/
def sortSegments (l : List CompiledAbsoluteSegment) : List CompiledAbsoluteSegment :=
  l.foldl (fun acc x => insertSegDesc x acc) []

/-- The single executed iteration of the `like`-substitution do-while
(lines 557-568; the inner `let likeIndex` shadows the loop variable, which
stays `-1`, so the body runs exactly once).  Returns `none` on a crash. -/
def xySubstitute (R : String → St → Option St) (isX : Bool)
    (prePipe dp : List String) (st : St) : Option (St × List String) :=
  let likeIndex := jsIndexOf prePipe "like"
  if likeIndex > -1 then
    match getStr prePipe (likeIndex + 1) with
    | none => none
    | some refId =>
      match R refId st with
      | none => none
      | some st1 =>
        match st1.lookup refId with
        | none => none
        | some srcRec =>
          match (getAbsData srcRec isX).value with
          | some vals =>
            if vals.length = 1 then
              some (st1, jsSplice2 dp likeIndex.toNat vals)
            else some (st1, dp)
          | none => some (st1, dp)
  else some (st, dp)

/-- Resolution of `easingCurveHere` from the `| ... |` notation
(lines 582-597); the inner `none` encodes the diagnostic `return` that
aborts the directive.  (The `if (!easingCurveHere)` diagnostic at line 589
can never fire: a JS array is always truthy.) -/
def xyEasingCurve (R : String → St → Option St) (isX : Bool)
    (keyword name : String) (easingData : List String) (st : St) :
    Option (St × Option (List NumQ)) :=
  if easingData.head? = some "like" then
    match easingData[1]? with
    | none => none
    | some refId =>
      match R refId st with
      | none => none
      | some st3 =>
        match st3.lookup refId with
        | none => none
        | some srcRec =>
          some (st3, some (((getAbsData srcRec isX).easingFunction).getD
            srcRec.yEasingCurve))
  else if easingData.length = 4 then some (st, some (easingData.map parseIntJS))
  else some (st.logDiag (.malformedPipeParams keyword name), none)

/-- `case 'x'  case 'y'` after the mode check (lines 533-800).  `line` is
the whole (trimmed) directive, consulted for the
`instruction.includes(':')` test; `dp0` is `dataParameter` as computed by
the preamble.  Returns `none` on a crash (thrown error); diagnostic paths
return normally with the partially updated record, exactly as the
source's `return` statements do. -/
def processXYCore (R : String → St → Option St) (keyword : String)
    (isX : Bool) (distanceUnit : String) (line : String)
    (fds : Option CompiledScrollInstruction) (dp0 : List String)
    (r : CompiledScrollInstruction) (name : String) (st : St) :
    Option (St × CompiledScrollInstruction) :=
  -- `resultHere[absoluteKey].value = dataParameter` (line 537)
  let r := setAbsData r isX { getAbsData r isX with value := some dp0 }
  -- `if (foundDataSource) dataParameter = foundDataSource[absoluteKey].value!`
  let dpSrc : Option (List String) :=
    match fds with
    | some src => (getAbsData src isX).value
    | none => some dp0
  match dpSrc with
  | none => none  -- the `!` assertion lied: `.length` of undefined throws
  | some dp =>
    if dp.length = 1 then
      let dest := parseIntU dp.head?
      let r := setAbsData r isX { getAbsData r isX with destination := some dest }
      some (st, setAxisListener r isX (.fixedDest dest distanceUnit))
    else if ¬ jsContainsChar line ':' then
      -- lines 550-616: uniform waypoint list with optional `| ... |` easing
      let pipeIndex := jsIndexOf dp "|"
      let prePipe := if pipeIndex > -1 then dp.take pipeIndex.toNat else dp
      match xySubstitute R isX prePipe dp st with
      | none => none
      | some (st2, dp2) =>
        if dp2.contains "|" then
          if dp2.getLast? ≠ some "|" then
            some (st2.logDiag (.invalidPipe keyword name), r)
          else
            match xyEasingCurve R isX keyword name
              ((dp2.drop (pipeIndex + 1).toNat).dropLast) st2 with
            | none => none
            | some (st3, none) => some (st3, r)
            | some (st3, some curve) =>
              some (st3, setAxisListener r isX
                (.piecewise prePipe curve distanceUnit))
        else
          some (st2, setAxisListener r isX
            (.piecewise prePipe defaultCurve distanceUnit))
    else
      -- lines 617-800: fully custom multi-segment timeline
      if dp[1]? ≠ some "." then
        some (st.logDiag (.unspecifiedStart keyword name), r)
      else
        let initialPos := parseIntU dp.head?
        let fullParameter := joinSpaces (dp.drop 2)
        let seg := segmentArg fullParameter
        if seg.2 ≠ "" then
          some (st.logDiag (.segmentationFailed keyword name), r)
        else
          match collectSegments R isX keyword name r.enterAt seg.1 st
            (some 0) (some 0) [] with
          | none => none
          | some (st3, segments) =>
            some (st3, setAxisListener r isX
              (.custom initialPos (sortSegments segments) distanceUnit))

/-- `case 'x'  case 'y'` (lines 527-802): the non-absolute mode check
(diagnostic only — the source's lone `console.error` without a `return`,
so processing continues), then the core. -/
def processXY (R : String → St → Option St) (keyword : String) (isAbs : Bool)
    (line : String) (fds : Option CompiledScrollInstruction)
    (dp0 : List String) (r : CompiledScrollInstruction) (name : String)
    (st : St) : Option (St × CompiledScrollInstruction) :=
  let isX := keyword = "x"
  let distanceUnit := if isX then "vw" else "vh"
  processXYCore R keyword isX distanceUnit line fds dp0 r name
    (if isAbs then st else st.logDiag (.xyOutsideAbsolute keyword name))

/-! ## The per-directive loop and `requestForProcessing` -/

/-- The recognised keyword set (line 348). -/
def validKeywords : List String :=
  ["enter", "ease", "duration", "leave", "opacity-ease", "y", "x"]

/-- `if (dataParameter[0] === 'like') { requestForProcessing(...); ... }`
(lines 365-368): resolve `foundDataSource`. -/
def likeResolve (R : String → St → Option St) (dp : List String) (st : St) :
    Option (St × Option CompiledScrollInstruction) :=
  if dp.head? = some "like" then
    match dp[1]? with
    | none => none
    | some refId =>
      match R refId st with
      | none => none
      | some st1 => some (st1, st1.lookup refId)
  else some (st, none)

/-- The `with-entry` / `with-exit` / `after-entry` / `after-exit`
referent forms (lines 370-408), including `checkAllowReferent`: resolve
`foundDataValue`. -/
def referentResolve (R : String → St → Option St)
    (keyword entryName : String) (dp : List String) (st : St) :
    Option (St × Option NumQ) :=
  let refKind := dp.head?
  if refKind = some "with-entry" ∨ refKind = some "with-exit" ∨
      refKind = some "after-entry" ∨ refKind = some "after-exit" then
    if keyword ≠ "enter" ∧ keyword ≠ "leave" then
      some (st.logDiag (.invalidReferent (refKind.getD "") keyword entryName),
        none)
    else
      match dp[1]? with
      | none => none
      | some refId =>
        match R refId st with
        | none => none
        | some st3 =>
          match st3.lookup refId with
          | none => none
          | some src =>
            let v : NumQ :=
              if refKind = some "with-entry" then src.enterAt
              else if refKind = some "with-exit" then nadd src.enterAt src.duration
              else if refKind = some "after-entry" then
                nadd src.enterAt (parseIntU dp[2]?)
              else nadd (nadd src.enterAt src.duration) (parseIntU dp[2]?)
            some (st3, some v)
  else some (st, none)

/-- One iteration of the directive `forEach` (lines 346-804): keyword
recognition, the `like` / referent preamble (lines 361-408), then the
`switch`. -/
def processLine (R : String → St → Option St) (isAbs : Bool)
    (entry : ScrollInstruction) (line : String) (st : St)
    (r : CompiledScrollInstruction) :
    Option (St × CompiledScrollInstruction) :=
  let keyword := keywordOf line
  if ¬ validKeywords.contains keyword then
    some (st.logDiag (.unknownDirective keyword entry.name), r)
  else
    let dp := (splitSpaces (jsTrim line)).drop 1
    match likeResolve R dp st with
    | none => none
    | some (st2, fds) =>
      match referentResolve R keyword entry.name dp st2 with
      | none => none
      | some (st4, fdv) =>
        match keyword with
        | "enter" =>
          let p := processEnter fds fdv dp r entry.name
          some (p.2.foldl St.logDiag st4, p.1)
        | "leave" =>
          let p := processLeave fds fdv dp r entry.name
          some (p.2.foldl St.logDiag st4, p.1)
        | "ease" =>
          let p := processEase isAbs fds dp r entry.name
          some (p.2.foldl St.logDiag st4, p.1)
        | "opacity-ease" =>
          let p := processOpacityEase isAbs fds dp r entry.name
          some (p.2.foldl St.logDiag st4, p.1)
        | "duration" =>
          let p := processDuration fds dp r entry.name
          some (p.2.foldl St.logDiag st4, p.1)
        | _ => processXY R keyword isAbs line fds dp r entry.name st4

/-- Fold `processLine` over the (reordered) directive list. -/
def processLines (R : String → St → Option St) (isAbs : Bool)
    (entry : ScrollInstruction) :
    List String → St → CompiledScrollInstruction →
    Option (St × CompiledScrollInstruction)
  | [], st, r => some (st, r)
  | line :: rest, st, r =>
    match processLine R isAbs entry line st r with
    | none => none
    | some (st1, r1) => processLines R isAbs entry rest st1 r1

/-- Splitting a directive string (lines 332-341): split on `;`, trim, drop
empties, and strip a leading `!absolute` flag. -/
def splitDirectives (instruction : String) : Bool × List String :=
  let lines := ((jsSplitOn instruction ';').map jsTrim).filter (· ≠ "")
  match lines with
  | first :: rest => if first = "!absolute" then (true, rest) else (false, lines)
  | [] => (false, [])

/-- The two stable comparator sorts (lines 344-345): `leave `-prefixed
directives pushed last, then `y `-prefixed directives pushed last.  A
stable sort on a boolean key is a stable partition. -/
def directiveSort (lines : List String) : List String :=
  let l1 := lines.filter (fun s => ¬ jsStartsWith s "leave ") ++
    lines.filter (fun s => jsStartsWith s "leave ")
  l1.filter (fun s => ¬ jsStartsWith s "y ") ++
    l1.filter (fun s => jsStartsWith s "y ")

/-- The body of `requestForProcessing` (lines 292-809), abstracted over
the re-entrant recursive call `R`. -/
def rfpBody (R : String → St → Option St) (id : String) (st : St) : Option St :=
  if (st.lookup id).isSome then some st
  else
    match st.pending.find? (fun e => e.name = id) with
    | none => none  -- `entriesToProcess.find(...)!` was undefined: crash
    | some entry =>
      let sd := splitDirectives entry.instruction
      let r0 := { defaultRecord entry with isAbsolute := sd.1 }
      match processLines R sd.1 entry (directiveSort sd.2) st r0 with
      | none => none
      | some (st1, r1) =>
        let finalR := { r1 with leaveAt := nadd r1.enterAt r1.duration }
        some { st1 with
               map := st1.map ++ [(entry.name, finalR)],
               pending := st1.pending.filter fun t => t.name ≠ id }

/-- `requestForProcessing`, fuelled: `none` models the unbounded recursion
of the source (a JS stack overflow) or a thrown lookup error; the source
has no cycle guard of any kind. -/
def requestForProcessing : ℕ → String → St → Option St
  | 0, _, _ => none
  | fuel + 1, id, st => rfpBody (requestForProcessing fuel) id st

/-- The drain loop (lines 811-813). -/
def driverLoop : ℕ → St → Option St
  | 0, st =>
    match st.pending with
    | [] => some st
    | _ :: _ => none
  | fuel + 1, st =>
    match st.pending with
    | [] => some st
    | e :: _ =>
      match requestForProcessing (fuel + 1) e.name st with
      | none => none
      | some st1 => driverLoop fuel st1

/-- `CompilationReport`. -/
structure CompilationReport where
  compilationResult : List CompiledScrollInstruction
  maxHeight : NumQ
  deriving DecidableEq, Repr

/-- The initial compiler state. -/
def initSt (entries : List ScrollInstruction) : St :=
  { map := [], pending := entries, log := [] }

/-- `compileScrollData` (lines 288-820). -/
def compileScrollData (fuel : ℕ) (entries : List ScrollInstruction) :
    Option CompilationReport :=
  (driverLoop fuel (initSt entries)).map fun st =>
    let compilationResult := st.map.map (·.2)
    { compilationResult := compilationResult,
      maxHeight := nsub (jsMaxList (compilationResult.map fun e =>
        nadd e.enterAt e.duration)) (some 100) }

/-! ## Entries used in the verification -/

/-- The cyclic pair of raw entries: `A: enter like B`. -/
def cycleA : ScrollInstruction := ⟨"A", "enter like B", 0⟩

/-- The cyclic pair of raw entries: `B: enter like A`. -/
def cycleB : ScrollInstruction := ⟨"B", "enter like A", 0⟩

/-- The initial compiler state over the cyclic pair. -/
def cycleSt : St := initSt [cycleA, cycleB]

/-! ## Preservation machinery

`StepOK st st'` records that a compiler step only appends to the shared
compilation map and preserves the `leaveAt = enterAt + duration`
invariant; `PresR R` says the re-entrant resolver `R` enjoys it. -/

/-- Every record in the shared map satisfies
`leaveAt == enterAt + duration` (the §3 invariant). -/
def MapInv (st : St) : Prop :=
  ∀ p ∈ st.map, p.2.leaveAt = nadd p.2.enterAt p.2.duration

/-- A state transition that appends to the map and preserves `MapInv`. -/
def StepOK (st st' : St) : Prop :=
  (∃ l, st'.map = st.map ++ l) ∧ (MapInv st → MapInv st')

/-- The resolver argument only performs `StepOK` transitions. -/
def PresR (R : String → St → Option St) : Prop :=
  ∀ id st st', R id st = some st' → StepOK st st'

theorem stepOK_refl (st : St) : StepOK st st :=
  ⟨⟨[], (List.append_nil _).symm⟩, id⟩

theorem stepOK_trans {a b c : St} (h1 : StepOK a b) (h2 : StepOK b c) :
    StepOK a c := by
  obtain ⟨⟨l1, e1⟩, i1⟩ := h1
  obtain ⟨⟨l2, e2⟩, i2⟩ := h2
  exact ⟨⟨l1 ++ l2, by rw [e2, e1, List.append_assoc]⟩, fun h => i2 (i1 h)⟩

theorem stepOK_logDiag (st : St) (d : Diag) : StepOK st (st.logDiag d) :=
  ⟨⟨[], (List.append_nil _).symm⟩, id⟩

theorem stepOK_foldl_logDiag (ds : List Diag) :
    ∀ st : St, StepOK st (ds.foldl St.logDiag st) := by
  induction ds with
  | nil => intro st; exact stepOK_refl st
  | cons d ds ih => intro st; exact stepOK_trans (stepOK_logDiag st d) (ih _)

theorem csTime_ok {R : String → St → Option St} (hR : PresR R)
    {kw nm : String} {rE : NumQ} {m : SegMatch} {lt : NumQ}
    {seg0 : CompiledAbsoluteSegment} {st st' : St}
    {os : Option CompiledAbsoluteSegment}
    (h : csTime R kw nm rE m lt seg0 st = some (st', os)) : StepOK st st' := by
  unfold csTime at h
  split at h
  · split at h <;>
    · simp only [Option.some.injEq, Prod.mk.injEq] at h
      obtain ⟨rfl, -⟩ := h
      exact stepOK_refl st
  · split at h
    · split at h
      · simp at h
      · rename_i st1 hRcall
        split at h
        · simp at h
        · simp only [Option.some.injEq, Prod.mk.injEq] at h
          obtain ⟨rfl, -⟩ := h
          exact hR _ _ _ hRcall
    · simp only [Option.some.injEq, Prod.mk.injEq] at h
      obtain ⟨rfl, -⟩ := h
      exact stepOK_logDiag st _

theorem csPos_ok {R : String → St → Option St} (hR : PresR R)
    {isX : Bool} {kw nm : String} {numG : Option String} {likeFlag : Bool}
    {likeId : Option String}
    {setF : CompiledAbsoluteSegment → NumQ → CompiledAbsoluteSegment}
    {s : CompiledAbsoluteSegment} {st st' : St} {s' : CompiledAbsoluteSegment}
    (h : csPos R isX kw nm numG likeFlag likeId setF s st = some (st', s')) :
    StepOK st st' := by
  unfold csPos at h
  split at h <;>
  · split at h
    · split at h
      · simp at h
      · split at h
        · simp at h
        · rename_i st1 hRcall
          split at h
          · simp at h
          · split at h
            · simp only [Option.some.injEq, Prod.mk.injEq] at h
              obtain ⟨rfl, -⟩ := h
              exact stepOK_trans (hR _ _ _ hRcall) (stepOK_logDiag _ _)
            · simp only [Option.some.injEq, Prod.mk.injEq] at h
              obtain ⟨rfl, -⟩ := h
              exact hR _ _ _ hRcall
    · simp only [Option.some.injEq, Prod.mk.injEq] at h
      obtain ⟨rfl, -⟩ := h
      exact stepOK_refl st

theorem csEase_ok {R : String → St → Option St} (hR : PresR R)
    {m : SegMatch} {s : CompiledAbsoluteSegment} {st st' : St}
    {s' : CompiledAbsoluteSegment}
    (h : csEase R m s st = some (st', s')) : StepOK st st' := by
  unfold csEase at h
  split at h
  · simp only [Option.some.injEq, Prod.mk.injEq] at h
    obtain ⟨rfl, -⟩ := h
    exact stepOK_refl st
  · split at h
    · split at h
      · simp at h
      · split at h
        · simp at h
        · rename_i st1 hRcall
          split at h
          · simp at h
          · simp only [Option.some.injEq, Prod.mk.injEq] at h
            obtain ⟨rfl, -⟩ := h
            exact hR _ _ _ hRcall
    · simp only [Option.some.injEq, Prod.mk.injEq] at h
      obtain ⟨rfl, -⟩ := h
      exact stepOK_refl st

theorem collectSegment_ok {R : String → St → Option St} (hR : PresR R)
    {isX : Bool} {kw nm : String} {rE : NumQ} {m : SegMatch} {st : St}
    {lt lp : NumQ} {segs : List CompiledAbsoluteSegment} {st' : St}
    {lt' lp' : NumQ} {segs' : List CompiledAbsoluteSegment}
    (h : collectSegment R isX kw nm rE m st lt lp segs =
      some (st', lt', lp', segs')) : StepOK st st' := by
  simp only [collectSegment] at h
  split at h
  · simp at h
  · rename_i stA hT
    simp only [Option.some.injEq, Prod.mk.injEq] at h
    obtain ⟨rfl, -⟩ := h
    exact csTime_ok hR hT
  · rename_i stA seg1 hT
    split at h
    · simp at h
    · rename_i stB seg2 hP1
      split at h
      · simp at h
      · rename_i stC seg3 hP2
        split at h
        · simp at h
        · rename_i stD segF hE
          simp only [Option.some.injEq, Prod.mk.injEq] at h
          obtain ⟨rfl, -⟩ := h
          exact stepOK_trans (csTime_ok hR hT)
            (stepOK_trans (csPos_ok hR hP1)
              (stepOK_trans (csPos_ok hR hP2) (csEase_ok hR hE)))

theorem collectSegments_ok {R : String → St → Option St} (hR : PresR R)
    {isX : Bool} {kw nm : String} {rE : NumQ} :
    ∀ {ms : List SegMatch} {st : St} {lt lp : NumQ}
      {segs : List CompiledAbsoluteSegment} {st' : St}
      {segs' : List CompiledAbsoluteSegment},
      collectSegments R isX kw nm rE ms st lt lp segs = some (st', segs') →
      StepOK st st' := by
  intro ms
  induction ms with
  | nil =>
    intro st lt lp segs st' segs' h
    simp only [collectSegments, Option.some.injEq, Prod.mk.injEq] at h
    obtain ⟨rfl, -⟩ := h
    exact stepOK_refl st
  | cons m ms ih =>
    intro st lt lp segs st' segs' h
    simp only [collectSegments] at h
    split at h
    · simp at h
    · rename_i st1 lt1 lp1 segs1 hstep
      exact stepOK_trans (collectSegment_ok hR hstep) (ih h)

theorem xySubstitute_ok {R : String → St → Option St} (hR : PresR R)
    {isX : Bool} {prePipe dp : List String} {st st' : St} {dp' : List String}
    (h : xySubstitute R isX prePipe dp st = some (st', dp')) : StepOK st st' := by
  simp only [xySubstitute] at h
  split at h
  · split at h
    · simp at h
    · split at h
      · simp at h
      · rename_i st1 hRcall
        split at h
        · simp at h
        · split at h
          · split at h <;>
            · simp only [Option.some.injEq, Prod.mk.injEq] at h
              obtain ⟨rfl, -⟩ := h
              exact hR _ _ _ hRcall
          · simp only [Option.some.injEq, Prod.mk.injEq] at h
            obtain ⟨rfl, -⟩ := h
            exact hR _ _ _ hRcall
  · simp only [Option.some.injEq, Prod.mk.injEq] at h
    obtain ⟨rfl, -⟩ := h
    exact stepOK_refl st

theorem xyEasingCurve_ok {R : String → St → Option St} (hR : PresR R)
    {isX : Bool} {kw nm : String} {easingData : List String} {st st' : St}
    {oc : Option (List NumQ)}
    (h : xyEasingCurve R isX kw nm easingData st = some (st', oc)) :
    StepOK st st' := by
  simp only [xyEasingCurve] at h
  split at h
  · split at h
    · simp at h
    · split at h
      · simp at h
      · rename_i st3 hRcall
        split at h
        · simp at h
        · simp only [Option.some.injEq, Prod.mk.injEq] at h
          obtain ⟨rfl, -⟩ := h
          exact hR _ _ _ hRcall
  · split at h
    · simp only [Option.some.injEq, Prod.mk.injEq] at h
      obtain ⟨rfl, -⟩ := h
      exact stepOK_refl st
    · simp only [Option.some.injEq, Prod.mk.injEq] at h
      obtain ⟨rfl, -⟩ := h
      exact stepOK_logDiag st _

theorem processXYCore_ok {R : String → St → Option St} (hR : PresR R)
    {keyword : String} {isX : Bool} {u line : String}
    {fds : Option CompiledScrollInstruction} {dp0 : List String}
    {r : CompiledScrollInstruction} {name : String} {st st' : St}
    {r' : CompiledScrollInstruction}
    (h : processXYCore R keyword isX u line fds dp0 r name st =
      some (st', r')) : StepOK st st' := by
  simp only [processXYCore] at h
  split at h
  · simp at h
  · split at h
    · simp only [Option.some.injEq, Prod.mk.injEq] at h
      obtain ⟨rfl, -⟩ := h
      exact stepOK_refl st
    · split at h
      · split at h
        · simp at h
        · rename_i st2 dp2 hsub
          split at h
          · split at h
            · simp only [Option.some.injEq, Prod.mk.injEq] at h
              obtain ⟨rfl, -⟩ := h
              exact stepOK_trans (xySubstitute_ok hR hsub) (stepOK_logDiag _ _)
            · split at h
              · simp at h
              · rename_i st3 hcurve
                simp only [Option.some.injEq, Prod.mk.injEq] at h
                obtain ⟨rfl, -⟩ := h
                exact stepOK_trans (xySubstitute_ok hR hsub)
                  (xyEasingCurve_ok hR hcurve)
              · rename_i st3 curve hcurve
                simp only [Option.some.injEq, Prod.mk.injEq] at h
                obtain ⟨rfl, -⟩ := h
                exact stepOK_trans (xySubstitute_ok hR hsub)
                  (xyEasingCurve_ok hR hcurve)
          · simp only [Option.some.injEq, Prod.mk.injEq] at h
            obtain ⟨rfl, -⟩ := h
            exact xySubstitute_ok hR hsub
      · split at h
        · simp only [Option.some.injEq, Prod.mk.injEq] at h
          obtain ⟨rfl, -⟩ := h
          exact stepOK_logDiag st _
        · split at h
          · simp only [Option.some.injEq, Prod.mk.injEq] at h
            obtain ⟨rfl, -⟩ := h
            exact stepOK_logDiag st _
          · split at h
            · simp at h
            · rename_i st3 segments hcol
              simp only [Option.some.injEq, Prod.mk.injEq] at h
              obtain ⟨rfl, -⟩ := h
              exact collectSegments_ok hR hcol

theorem processXY_ok {R : String → St → Option St} (hR : PresR R)
    {keyword : String} {isAbs : Bool} {line : String}
    {fds : Option CompiledScrollInstruction} {dp0 : List String}
    {r : CompiledScrollInstruction} {name : String} {st st' : St}
    {r' : CompiledScrollInstruction}
    (h : processXY R keyword isAbs line fds dp0 r name st = some (st', r')) :
    StepOK st st' := by
  simp only [processXY] at h
  refine stepOK_trans ?_ (processXYCore_ok hR h)
  split
  · exact stepOK_refl st
  · exact stepOK_logDiag st _

theorem likeResolve_ok {R : String → St → Option St} (hR : PresR R)
    {dp : List String} {st st' : St} {fds : Option CompiledScrollInstruction}
    (h : likeResolve R dp st = some (st', fds)) : StepOK st st' := by
  simp only [likeResolve] at h
  split at h
  · split at h
    · simp at h
    · split at h
      · simp at h
      · rename_i st1 hRcall
        simp only [Option.some.injEq, Prod.mk.injEq] at h
        obtain ⟨rfl, -⟩ := h
        exact hR _ _ _ hRcall
  · simp only [Option.some.injEq, Prod.mk.injEq] at h
    obtain ⟨rfl, -⟩ := h
    exact stepOK_refl st

theorem referentResolve_ok {R : String → St → Option St} (hR : PresR R)
    {keyword nm : String} {dp : List String} {st st' : St} {fdv : Option NumQ}
    (h : referentResolve R keyword nm dp st = some (st', fdv)) :
    StepOK st st' := by
  simp only [referentResolve] at h
  split at h
  · split at h
    · simp only [Option.some.injEq, Prod.mk.injEq] at h
      obtain ⟨rfl, -⟩ := h
      exact stepOK_logDiag st _
    · split at h
      · simp at h
      · split at h
        · simp at h
        · rename_i st3 hRcall
          split at h
          · simp at h
          · simp only [Option.some.injEq, Prod.mk.injEq] at h
            obtain ⟨rfl, -⟩ := h
            exact hR _ _ _ hRcall
  · simp only [Option.some.injEq, Prod.mk.injEq] at h
    obtain ⟨rfl, -⟩ := h
    exact stepOK_refl st

theorem processLine_ok {R : String → St → Option St} (hR : PresR R)
    {isAbs : Bool} {entry : ScrollInstruction} {line : String} {st : St}
    {r : CompiledScrollInstruction} {st' : St} {r' : CompiledScrollInstruction}
    (h : processLine R isAbs entry line st r = some (st', r')) :
    StepOK st st' := by
  simp only [processLine] at h
  split at h
  · simp only [Option.some.injEq, Prod.mk.injEq] at h
    obtain ⟨rfl, -⟩ := h
    exact stepOK_logDiag st _
  · split at h
    · simp at h
    · rename_i st2 fds hlike
      split at h
      · simp at h
      · rename_i st4 fdv href
        have base := stepOK_trans (likeResolve_ok hR hlike)
          (referentResolve_ok hR href)
        split at h
        iterate 5
          first
          | · simp only [Option.some.injEq, Prod.mk.injEq] at h
              obtain ⟨rfl, -⟩ := h
              exact stepOK_trans base (stepOK_foldl_logDiag _ _)
        · exact stepOK_trans base (processXY_ok hR h)

theorem processLines_ok {R : String → St → Option St} (hR : PresR R)
    {isAbs : Bool} {entry : ScrollInstruction} :
    ∀ {lines : List String} {st : St} {r : CompiledScrollInstruction}
      {st' : St} {r' : CompiledScrollInstruction},
      processLines R isAbs entry lines st r = some (st', r') → StepOK st st' := by
  intro lines
  induction lines with
  | nil =>
    intro st r st' r' h
    simp only [processLines, Option.some.injEq, Prod.mk.injEq] at h
    obtain ⟨rfl, -⟩ := h
    exact stepOK_refl st
  | cons line rest ih =>
    intro st r st' r' h
    simp only [processLines] at h
    split at h
    · simp at h
    · rename_i st1 r1 hline
      exact stepOK_trans (processLine_ok hR hline) (ih h)

theorem rfpBody_ok {R : String → St → Option St} (hR : PresR R)
    {id : String} {st st' : St} (h : rfpBody R id st = some st') :
    StepOK st st' := by
  simp only [rfpBody] at h
  split at h
  · simp only [Option.some.injEq] at h
    subst h
    exact stepOK_refl st
  · split at h
    · simp at h
    · rename_i entry hfind
      split at h
      · simp at h
      · rename_i st1 r1 hlines
        simp only [Option.some.injEq] at h
        subst h
        refine stepOK_trans (processLines_ok hR hlines) ⟨⟨_, rfl⟩, ?_⟩
        intro hinv p hp
        rcases List.mem_append.1 hp with hp | hp
        · exact hinv p hp
        · simp only [List.mem_singleton] at hp
          subst hp
          rfl

theorem rfp_ok : ∀ fuel : ℕ, PresR (requestForProcessing fuel) := by
  intro fuel
  induction fuel with
  | zero => intro id st st' h; simp [requestForProcessing] at h
  | succ n ih => intro id st st' h; exact rfpBody_ok ih h

theorem driverLoop_ok :
    ∀ (fuel : ℕ) {st st' : St}, driverLoop fuel st = some st' → StepOK st st' := by
  intro fuel
  induction fuel with
  | zero =>
    intro st st' h
    simp only [driverLoop] at h
    split at h
    · simp only [Option.some.injEq] at h; subst h; exact stepOK_refl st
    · simp at h
  | succ n ih =>
    intro st st' h
    simp only [driverLoop] at h
    split at h
    · simp only [Option.some.injEq] at h; subst h; exact stepOK_refl st
    · split at h
      · simp at h
      · rename_i e rest st1 hstep
        exact stepOK_trans (rfp_ok (n + 1) _ _ _ hstep) (ih h)

theorem nmax_spec {a b : NumQ} {q : ℚ} (h : nmax a b = some q) :
    (a = some q ∨ b = some q) ∧
    (∀ v : ℚ, a = some v ∨ b = some v → v ≤ q) := by
  cases a with
  | none => simp [nmax] at h
  | some x =>
    cases b with
    | none => simp [nmax] at h
    | some y =>
      simp only [nmax, Option.some.injEq] at h
      subst h
      constructor
      · rcases max_choice x y with h | h
        · exact Or.inl (by rw [h])
        · exact Or.inr (by rw [h])
      · intro v hv
        rcases hv with hv | hv <;> injection hv with hv <;> subst hv
        · exact le_max_left x y
        · exact le_max_right x y

theorem foldl_nmax_none : ∀ t : List NumQ, t.foldl nmax none = none := by
  intro t
  induction t with
  | nil => rfl
  | cons b t ih => simpa [nmax] using ih

theorem foldl_nmax_spec :
    ∀ (t : List NumQ) (acc : NumQ) (q : ℚ), t.foldl nmax acc = some q →
      (acc = some q ∨ some q ∈ t) ∧
      (∀ v : ℚ, (acc = some v ∨ some v ∈ t) → v ≤ q) := by
  intro t
  induction t with
  | nil =>
    intro acc q h
    simp only [List.foldl_nil] at h
    subst h
    refine ⟨Or.inl rfl, fun v hv => ?_⟩
    rcases hv with hv | hv
    · injection hv with hv; exact le_of_eq hv.symm
    · simp at hv
  | cons b t ih =>
    intro acc q h
    simp only [List.foldl_cons] at h
    cases hab : nmax acc b with
    | none =>
      rw [hab, foldl_nmax_none] at h
      simp at h
    | some w =>
      rw [hab] at h
      obtain ⟨hmem, hbound⟩ := ih (some w) q h
      obtain ⟨hw, hwb⟩ := nmax_spec hab
      constructor
      · rcases hmem with hm | hm
        · injection hm with hm
          subst hm
          rcases hw with h1 | h1
          · exact Or.inl h1
          · exact Or.inr (by simp [← h1])
        · exact Or.inr (List.mem_cons_of_mem _ hm)
      · intro v hv
        rcases hv with hv | hv
        · exact le_trans (hwb v (Or.inl hv)) (hbound w (Or.inl rfl))
        · rcases List.mem_cons.1 hv with hv | hv
          · exact le_trans (hwb v (Or.inr hv.symm)) (hbound w (Or.inl rfl))
          · exact hbound v (Or.inr hv)

theorem jsMaxList_spec {l : List NumQ} {q : ℚ} (h : jsMaxList l = some q) :
    some q ∈ l ∧ ∀ v : ℚ, some v ∈ l → v ≤ q := by
  cases l with
  | nil => simp [jsMaxList] at h
  | cons a t =>
    simp only [jsMaxList] at h
    obtain ⟨hm, hb⟩ := foldl_nmax_spec t a q h
    constructor
    · rcases hm with hm | hm
      · rw [← hm]; exact List.mem_cons_self a t
      · exact List.mem_cons_of_mem _ hm
    · intro v hv
      rcases List.mem_cons.1 hv with hv | hv
      · exact hb v (Or.inl hv.symm)
      · exact hb v (Or.inr hv)

theorem rfpBody_inserts {R : String → St → Option St} {id : String}
    {st st' : St} (h : rfpBody R id st = some st')
    (hmiss : (st.lookup id).isSome = false) : st'.map ≠ [] := by
  simp only [rfpBody, hmiss, Bool.false_eq_true, if_false] at h
  split at h
  · simp at h
  · split at h
    · simp at h
    · rename_i st1 r1 hlines
      simp only [Option.some.injEq] at h
      subst h
      simp

theorem compile_map_nonempty {fuel : ℕ} {entries : List ScrollInstruction}
    {stF : St} (h : driverLoop fuel (initSt entries) = some stF)
    (hne : entries ≠ []) : stF.map ≠ [] := by
  cases fuel with
  | zero =>
    cases entries with
    | nil => exact absurd rfl hne
    | cons e rest => simp [driverLoop, initSt] at h
  | succ n =>
    cases entries with
    | nil => exact absurd rfl hne
    | cons e rest =>
      simp only [driverLoop, initSt] at h
      split at h
      · simp at h
      · rename_i st1 hstep
        have h1 : st1.map ≠ [] := rfpBody_inserts hstep rfl
        obtain ⟨⟨l, hl⟩, -⟩ := driverLoop_ok n h
        rw [hl]
        intro hcontra
        exact h1 (List.append_eq_nil.mp hcontra).1

/-! ## Cycle behaviour -/

theorem rfpBody_cycle_A (R : String → St → Option St)
    (h : R "B" cycleSt = none) : rfpBody R "A" cycleSt = none := by
  simp only [cycleSt, initSt, cycleA, cycleB] at h
  simp +decide [rfpBody, St.lookup, processLines, processLine, likeResolve,
    keywordOf, validKeywords, jsTrim, splitSpaces, jsSplitOn, splitOnChar,
    trimChars, splitDirectives, directiveSort, jsStartsWith, defaultRecord,
    cycleSt, cycleA, cycleB, initSt, h]

theorem rfpBody_cycle_B (R : String → St → Option St)
    (h : R "A" cycleSt = none) : rfpBody R "B" cycleSt = none := by
  simp only [cycleSt, initSt, cycleA, cycleB] at h
  simp +decide [rfpBody, St.lookup, processLines, processLine, likeResolve,
    keywordOf, validKeywords, jsTrim, splitSpaces, jsSplitOn, splitOnChar,
    trimChars, splitDirectives, directiveSort, jsStartsWith, defaultRecord,
    cycleSt, cycleA, cycleB, initSt, h]

theorem rfp_cycle : ∀ n, requestForProcessing n "A" cycleSt = none ∧
    requestForProcessing n "B" cycleSt = none := by
  intro n
  induction n with
  | zero => exact ⟨rfl, rfl⟩
  | succ n ih => exact ⟨rfpBody_cycle_A _ ih.2, rfpBody_cycle_B _ ih.1⟩

/-! ## The claims -/

/-- C1: The source's literal `leave V` branch (line 447) assigns
`enterAt := V - enterAt` instead of `duration := V - enterAt`, so
`enter 0; leave 100` compiles to `enterAt = 100, duration = 100,
leaveAt = 200`, while `enter 0; duration 100` compiles to `enterAt = 0,
duration = 100, leaveAt = 100` — the two directive strings do not compile
to identical records, contradicting the claim (and the spec's own §8 test).
This theorem evaluates the compiler at the failing input. -/
theorem claim1_leave_literal_divergence :
    ((compileScrollData 9 [⟨"a", "enter 0; leave 100", 0⟩]).map fun rep =>
        rep.compilationResult.map fun r => (r.enterAt, r.duration, r.leaveAt)) =
      some [(some 100, some 100, some 200)] ∧
    ((compileScrollData 9 [⟨"a", "enter 0; duration 100", 0⟩]).map fun rep =>
        rep.compilationResult.map fun r => (r.enterAt, r.duration, r.leaveAt)) =
      some [(some 0, some 100, some 100)] := by
  with_unfolding_all decide

/-- C2: Compilation does NOT terminate on a reference cycle: for the pair
`A: enter like B`, `B: enter like A`, `requestForProcessing` re-enters
itself forever (the source has no cycle guard and no `CyclicReference`
error of any kind), so every recursion budget is exhausted — the fuelled
model returns `none` for every fuel value, the shallow rendering of a JS
stack overflow.  This refutes the claimed detection on the code as
written. -/
theorem claim2_cycle_nontermination :
    ∀ fuel : ℕ, compileScrollData fuel [cycleA, cycleB] = none := by
  intro fuel
  cases fuel with
  | zero => rfl
  | succ n =>
    simp only [compileScrollData, driverLoop, initSt]
    rw [show ({ map := [], pending := [cycleA, cycleB], log := [] } : St) = cycleSt
        from rfl,
      show cycleA.name = "A" from rfl, (rfp_cycle (n + 1)).1]
    rfl

/-- C3 (counterexample): the degenerate curve `(1/2, 1/2, 1/2, 1/2)` is
successfully constructed, yet `evaluate` at progress `-1` returns `-1`,
not `0`: the degenerate (`x1 == y1 && x2 == y2`) early-return at line 126
precedes the boundary clamps, so clamping does not apply to degenerate
curves as the claim states. -/
theorem claim3_counterexample :
    (BezierEasing.mk? (some (1/2)) (some (1/2)) (some (1/2)) (some (1/2))).map
      (fun c => BezierEasing.evaluate c (-1)) = some (-1) ∧ ((-1 : ℚ) ≠ 0) := by
  with_unfolding_all decide

/-- C3 (amended): for every successfully constructed curve, `evaluate`
returns exactly 0 for progress ≤ 0 and exactly 1 for progress ≥ 1
PROVIDED the curve is not degenerate; a degenerate curve (x1 == y1 and
x2 == y2) instead returns the progress value unchanged, so the exact
boundary values are attained only at progress = 0 and progress = 1. -/
theorem claim3_boundary_clamp :
    ∀ (x1 y1 x2 y2 : NumQ) (c : BezierEasing.Curve) (p : ℚ),
      BezierEasing.mk? x1 y1 x2 y2 = some c →
      ((¬ (c.mX1 = c.mY1 ∧ c.mX2 = c.mY2)) →
        (p ≤ 0 → BezierEasing.evaluate c p = 0) ∧
        (1 ≤ p → BezierEasing.evaluate c p = 1)) ∧
      ((c.mX1 = c.mY1 ∧ c.mX2 = c.mY2) → BezierEasing.evaluate c p = p) := by
  intro x1 y1 x2 y2 c p _
  refine ⟨fun hdeg => ⟨fun hp => ?_, fun hp => ?_⟩, fun hdeg => ?_⟩
  · rw [BezierEasing.evaluate, if_neg hdeg, if_pos hp]
  · rw [BezierEasing.evaluate, if_neg hdeg, if_neg (by linarith),
      if_pos (by linarith)]
  · rw [BezierEasing.evaluate, if_pos hdeg]

/-- C3 (witness): the amended theorem applied to the concrete
non-degenerate curve `(0, 1/4, 1, 3/4)` at progress `-2` and `2`. -/
theorem claim3_witness :
    BezierEasing.evaluate ⟨0, 1/4, 1, 3/4⟩ (-2) = 0 ∧
    BezierEasing.evaluate ⟨0, 1/4, 1, 3/4⟩ 2 = 1 := by
  refine ⟨((claim3_boundary_clamp (some 0) (some (1/4)) (some 1) (some (3/4))
      ⟨0, 1/4, 1, 3/4⟩ (-2) (by with_unfolding_all decide)).1
      (by with_unfolding_all decide)).1 (by norm_num),
    ((claim3_boundary_clamp (some 0) (some (1/4)) (some 1) (some (3/4))
      ⟨0, 1/4, 1, 3/4⟩ 2 (by with_unfolding_all decide)).1
      (by with_unfolding_all decide)).2 (by norm_num)⟩

/-- C4: a non-absolute `x 50` directive emits the mode diagnostic but is
NOT dropped: the source's `console.error` at line 530 has no `return`, so
the directive is still processed — the default `xEasingFunction`
(`() => '0vw'`) is replaced by the constant-destination evaluator
returning 50vw, and `absoluteX.destination` is set.  This theorem
evaluates the compiler at the failing input, refuting the claimed
drop-and-keep-defaults behaviour. -/
theorem claim4_nonabsolute_x_processed :
    ((driverLoop 9 (initSt [⟨"a", "x 50", 0⟩])).map fun st =>
        (((st.lookup "a").map fun r =>
          (r.xListener, r.absoluteX.destination, evalListener r r.xListener 0)),
          st.log)) =
      some (some (Listener.fixedDest (some 50) "vw", some (some 50), some 50),
        [Diag.xyOutsideAbsolute "x" "a"]) := by
  with_unfolding_all rfl

/-- C5: when a compilation pass over a non-empty entry list completes, the
report's records are non-empty, `maxHeight` is exactly
`Math.max(enterAt + duration over records) - 100`, and whenever that
maximum is an actual number `q` (no NaN), `q` is attained by some record
and bounds every record's `enterAt + duration`. -/
theorem claim5_total_extent (fuel : ℕ) (entries : List ScrollInstruction)
    (rep : CompilationReport) (h : compileScrollData fuel entries = some rep)
    (hne : entries ≠ []) :
    rep.compilationResult ≠ [] ∧
    rep.maxHeight = nsub (jsMaxList (rep.compilationResult.map fun r =>
      nadd r.enterAt r.duration)) (some 100) ∧
    ∀ q : ℚ, jsMaxList (rep.compilationResult.map fun r =>
        nadd r.enterAt r.duration) = some q →
      (∃ r ∈ rep.compilationResult, nadd r.enterAt r.duration = some q) ∧
      ∀ r ∈ rep.compilationResult, ∀ v : ℚ,
        nadd r.enterAt r.duration = some v → v ≤ q := by
  simp only [compileScrollData] at h
  cases hd : driverLoop fuel (initSt entries) with
  | none => rw [hd] at h; simp at h
  | some stF =>
    rw [hd] at h
    simp only [Option.map_some'] at h
    obtain rfl := Option.some.inj h
    refine ⟨?_, rfl, ?_⟩
    · have hne' := compile_map_nonempty hd hne
      simpa using hne'
    · intro q hq
      obtain ⟨hmem, hb⟩ := jsMaxList_spec hq
      constructor
      · obtain ⟨r, hr, hrq⟩ := List.mem_map.1 hmem
        exact ⟨r, hr, hrq⟩
      · intro r hr v hv
        exact hb v (List.mem_map.2 ⟨r, hr, hv⟩)

/-- C5 (witness): the theorem applied to a concrete one-entry compilation. -/
theorem claim5_witness :
    ∃ rep, compileScrollData 9 [⟨"w5", "enter 5; duration 20", 0⟩] = some rep ∧
      rep.compilationResult ≠ [] ∧
      rep.maxHeight = nsub (jsMaxList (rep.compilationResult.map fun r =>
        nadd r.enterAt r.duration)) (some 100) := by
  cases hrep : compileScrollData 9 [⟨"w5", "enter 5; duration 20", 0⟩] with
  | none => exact absurd hrep (by with_unfolding_all decide)
  | some rep =>
    obtain ⟨h1, h2, -⟩ := claim5_total_extent 9 _ rep hrep (by simp)
    exact ⟨rep, rfl, h1, h2⟩

/-- C6: for the custom timeline `!absolute; x 40 . 50: - 80 | 0 0 1 1 |`,
querying the evaluator before the sole segment's end time returns 0 — the
chronologically first segment's default `startPos` (the `lastPos`
accumulator starts at 0, line 668) — not the leading `initialPos` 40:
`initialPos` is stored only in the synthesised checkpoint's `endPos`,
which the position formula never reads, so the evaluator's output is
independent of `initialPos` (last conjunct).  This refutes the claimed
interpolation from the initial fixed position. -/
theorem claim6_initialPos_unused :
    (((driverLoop 9 (initSt [⟨"a", "!absolute; x 40 . 50: - 80 | 0 0 1 1 |", 0⟩])).map
      fun st => (st.lookup "a").map fun r =>
        (r.xListener, evalListener r r.xListener 0)) =
      some (some (Listener.custom (some 40)
        [⟨some 50, some 0, some 80, defaultCurve⟩] "vw", some 0)) ∧
      (some (0:ℚ)) ≠ (some (40:ℚ))) ∧
    ∀ p : NumQ, customEval (some 100) p
      [⟨some 50, some 0, some 80, defaultCurve⟩] 0 = some 0 := by
  constructor
  · with_unfolding_all decide
  · intro p
    with_unfolding_all rfl

/-- C7: a 4-waypoint piecewise-uniform evaluator with the default easing
curve returns exactly the 1st, 2nd, 3rd, 4th parsed values at local
progress 0, 1/3, 2/3, 1 (for any numeric tokens); and compiling
`!absolute; x 10 20 30 40` installs exactly that evaluator over the four
tokens with the default curve. -/
theorem claim7_piecewise_boundaries :
    (∀ (rec : CompiledScrollInstruction) (u : String) (s0 s1 s2 s3 : String)
       (v0 v1 v2 v3 : ℚ),
      parseIntJS s0 = some v0 → parseIntJS s1 = some v1 →
      parseIntJS s2 = some v2 → parseIntJS s3 = some v3 →
      evalListener rec (.piecewise [s0, s1, s2, s3] defaultCurve u) 0 = some v0 ∧
      evalListener rec (.piecewise [s0, s1, s2, s3] defaultCurve u) (1/3) = some v1 ∧
      evalListener rec (.piecewise [s0, s1, s2, s3] defaultCurve u) (2/3) = some v2 ∧
      evalListener rec (.piecewise [s0, s1, s2, s3] defaultCurve u) 1 = some v3) ∧
    ((driverLoop 9 (initSt [⟨"a", "!absolute; x 10 20 30 40", 0⟩])).map fun st =>
        (st.lookup "a").map fun r => r.xListener) =
      some (some (.piecewise ["10", "20", "30", "40"] defaultCurve "vw")) := by
  refine ⟨fun rec u s0 s1 s2 s3 v0 v1 v2 v3 h0 h1 h2 h3 => ?_, ?_⟩
  · have ht0 : ((0:ℤ)).toNat = 0 := rfl
    have ht1 : ((1:ℤ)).toNat = 1 := rfl
    have ht2 : ((2:ℤ)).toNat = 2 := rfl
    have ht3 : ((3:ℤ)).toNat = 3 := rfl
    refine ⟨?_, ?_, ?_, ?_⟩ <;>
    · simp only [evalListener, List.length_cons, List.length_nil]
      norm_num [getStr, parseIntU, computeBezier, h0, h1, h2, h3, nadd, nmul, nsub,
        defaultCurve, ht0, ht1, ht2, ht3, List.getElem?_cons_zero,
        List.getElem?_cons_succ]
  · with_unfolding_all rfl

/-- C7 (witness): the generic evaluator property applied to the concrete
waypoints 10 20 30 40. -/
theorem claim7_witness :
    evalListener (defaultRecord ⟨"w7", "", 0⟩)
      (.piecewise ["10", "20", "30", "40"] defaultCurve "vw") 0 = some 10 ∧
    evalListener (defaultRecord ⟨"w7", "", 0⟩)
      (.piecewise ["10", "20", "30", "40"] defaultCurve "vw") (1/3) = some 20 ∧
    evalListener (defaultRecord ⟨"w7", "", 0⟩)
      (.piecewise ["10", "20", "30", "40"] defaultCurve "vw") (2/3) = some 30 ∧
    evalListener (defaultRecord ⟨"w7", "", 0⟩)
      (.piecewise ["10", "20", "30", "40"] defaultCurve "vw") 1 = some 40 :=
  claim7_piecewise_boundaries.1 (defaultRecord ⟨"w7", "", 0⟩) "vw"
    "10" "20" "30" "40" 10 20 30 40 (by decide) (by decide) (by decide)
    (by decide)

/-- C8: every `requestForProcessing` step preserves the map invariant
`leaveAt = enterAt + duration` (so, starting from the empty map, every
record ever present in the shared compilation map — including every
record read through a cross-element reference — satisfies it), and every
record of a completed compilation report satisfies it. -/
theorem claim8_leaveAt_invariant :
    (∀ (fuel : ℕ) (id : String) (st st' : St), MapInv st →
      requestForProcessing fuel id st = some st' → MapInv st') ∧
    (∀ (fuel : ℕ) (entries : List ScrollInstruction) (rep : CompilationReport),
      compileScrollData fuel entries = some rep →
      ∀ r ∈ rep.compilationResult, r.leaveAt = nadd r.enterAt r.duration) := by
  constructor
  · intro fuel id st st' hinv h
    exact (rfp_ok fuel id st st' h).2 hinv
  · intro fuel entries rep h r hr
    simp only [compileScrollData] at h
    cases hd : driverLoop fuel (initSt entries) with
    | none => rw [hd] at h; simp at h
    | some stF =>
      rw [hd] at h
      simp only [Option.map_some'] at h
      have hinvF : MapInv stF :=
        (driverLoop_ok fuel hd).2 (fun p hp => by simp [initSt] at hp)
      obtain rfl := Option.some.inj h
      obtain ⟨p, hp, rfl⟩ := List.mem_map.1 hr
      exact hinvF p hp

/-- C8 (witness): the theorem applied to a concrete compilation. -/
theorem claim8_witness :
    ∃ rep, compileScrollData 9 [⟨"w8", "enter 5; duration 20", 0⟩] = some rep ∧
      ∀ r ∈ rep.compilationResult, r.leaveAt = nadd r.enterAt r.duration := by
  cases hrep : compileScrollData 9 [⟨"w8", "enter 5; duration 20", 0⟩] with
  | none => exact absurd hrep (by with_unfolding_all decide)
  | some rep => exact ⟨rep, rfl, claim8_leaveAt_invariant.2 9 _ rep hrep⟩

/-- C9: in non-absolute mode, `ease like ID` updates ONLY the
`yEasingCurve` field (a record-update equality: every other field,
including the installed `yEasingFunction`, is untouched), while the
literal 4-number `ease` form rebuilds the listener from the newly parsed
curve; end-to-end, compiling `ea: ease 0 0.5 1 1` and `eb: ease like ea`
leaves `eb`'s installed vertical evaluator on the default `(0,0,1,1)`
curve even though its `yEasingCurve` field holds `ea`'s curve. -/
theorem claim9_ease_like_listener :
    (∀ (src : CompiledScrollInstruction) (refId : String)
       (r : CompiledScrollInstruction) (name : String),
      processEase false (some src) ["like", refId] r name =
        ({ r with yEasingCurve := src.yEasingCurve }, [])) ∧
    (∀ (s0 s1 s2 s3 : String) (r : CompiledScrollInstruction) (name : String),
      processEase false none [s0, s1, s2, s3] r name =
        ({ r with
            yEasingCurve := [parseFloatJS s0, parseFloatJS s1, parseFloatJS s2,
              parseFloatJS s3],
            yListener := .heightEasing [parseFloatJS s0, parseFloatJS s1,
              parseFloatJS s2, parseFloatJS s3] r.heightRatio }, [])) ∧
    ((driverLoop 9 (initSt [⟨"ea", "ease 0 0.5 1 1", 0⟩,
        ⟨"eb", "ease like ea", 0⟩])).map
      fun st => st.map.map fun p => (p.1, p.2.yEasingCurve, p.2.yListener)) =
      some [("ea", [some 0, some (1/2), some 1, some 1],
              Listener.heightEasing [some 0, some (1/2), some 1, some 1] 0),
            ("eb", [some 0, some (1/2), some 1, some 1],
              Listener.heightEasing defaultCurve 0)] := by
  refine ⟨fun src refId r name => rfl, fun s0 s1 s2 s3 r name => ?_, ?_⟩
  · simp [processEase]
  · with_unfolding_all decide

/-- C10: `opacity-ease` parses its parameters with `parseInt` (so the
fractional control 0.3 is stored as 0), while `ease` parses with
`parseFloat` (0.3 stored exactly); the compiled opacity evaluator closure
carries the truncated curve. -/
theorem claim10_opacity_parseInt :
    ((driverLoop 9 (initSt [⟨"o", "opacity-ease 0 0.3 1 1; ease 0 0.3 1 1", 0⟩])).map
      fun st => (st.lookup "o").map fun r =>
        (r.opacityEasingCurve, r.yEasingCurve, r.opacityListener)) =
      some (some ([some 0, some 0, some 1, some 1],
        [some 0, some (3/10), some 1, some 1],
        Listener.opacity4 [some 0, some 0, some 1, some 1])) ∧
    parseIntJS "0.3" = some 0 ∧ parseFloatJS "0.3" = some (3/10) := by
  with_unfolding_all decide
